import Mathlib

/-!
# Verification of s3-bulk-copy-object

A shallow embedding of the bulk S3 copy tool (`main.go`) and proofs about it.
Strings are modelled as `List Char` (the program only handles byte-level ASCII
paths, bucket names and keys). The Go standard-library helpers the program
calls (`path.Join`/`path.Clean`, `strings.TrimPrefix`, `url.QueryEscape`) are
modelled faithfully from their documented byte-level behaviour.
-/

set_option autoImplicit false

namespace S3Copy

/-- Paths, keys and bucket names are byte strings; modelled as `List Char`. -/
abbrev Str := List Char

/-! ## Go standard library: `path.Clean`, `path.Join` -/

/-- Split a byte string on the separator character, as in path processing:
`splitSegs "a//b" = ["a", "", "b"]`. Never returns the empty list. -/
def splitSegs : Str → List Str
  | [] => [[]]
  | c :: cs =>
    if c = '/' then [] :: splitSegs cs
    else
      match splitSegs cs with
      | s :: rest => (c :: s) :: rest
      | [] => [[c]]

/-- Join segments with the separator character. Left inverse of `splitSegs`. -/
def joinSegs : List Str → Str
  | [] => []
  | [s] => s
  | s :: rest => s ++ '/' :: joinSegs rest

/-- One step of the element stack used by Go `path.Clean`: drop empty and `.`
segments, let `..` pop a previous element (for a rooted path a `..` at the root
vanishes; for an unrooted path it is kept), push everything else. -/
def cleanPush (rooted : Bool) (stack : List Str) (seg : Str) : List Str :=
  if seg = [] ∨ seg = ['.'] then stack
  else if seg = ['.', '.'] then
    match stack with
    | [] => if rooted then [] else [['.', '.']]
    | top :: rest => if top = ['.', '.'] then seg :: top :: rest else rest
  else seg :: stack

/-- Go `path.Clean`: returns the shortest equivalent path, eliminating
multiple slashes, `.` elements and `..` elements together with the non-`..`
element that precedes them; the empty path cleans to `.`. -/
def goPathClean (p : Str) : Str :=
  if p = [] then ['.']
  else
    let rooted : Bool := decide (p.head? = some '/')
    let stack := (splitSegs p).foldl (cleanPush rooted) []
    let body := joinSegs stack.reverse
    if rooted then '/' :: body
    else if body = [] then ['.']
    else body

/-- Go `path.Join` on two elements: empty elements are ignored, the rest are
joined with a slash and the result is cleaned; all-empty input gives `""`. -/
def pathJoin (a b : Str) : Str :=
  if a = [] ∧ b = [] then []
  else if a = [] then goPathClean b
  else goPathClean (a ++ '/' :: b)

/-! ## Go standard library: `strings.TrimPrefix`, `url.QueryEscape` -/

/-- Go `strings.TrimPrefix s pre`: `s` without the leading `pre`, or `s`
unchanged if `s` does not start with `pre`. -/
def goTrimLeading (s pre : Str) : Str :=
  if pre.isPrefixOf s then s.drop pre.length else s

/-- Upper-case hex digit of a nibble, as Go `net/url` emits it. -/
def hexDigit (n : Nat) : Char :=
  if n < 10 then Char.ofNat (48 + n) else Char.ofNat (55 + n)

/-- Characters Go `url.QueryEscape` leaves unescaped: ASCII alphanumerics and
`-`, `_`, `.`, `~`. -/
def isUnreservedQuery (c : Char) : Bool :=
  c.isAlphanum || c = '-' || c = '_' || c = '.' || c = '~'

/-- Escape one byte as Go `url.QueryEscape` does: unreserved bytes kept,
space becomes `+`, every other byte becomes `%XX` with upper-case hex. -/
def escapeChar (c : Char) : Str :=
  if isUnreservedQuery c then [c]
  else if c = ' ' then ['+']
  else ['%', hexDigit (c.toNat / 16 % 16), hexDigit (c.toNat % 16)]

/-- Go `url.QueryEscape` over a byte string. -/
def goQueryEscape (s : Str) : Str :=
  (s.map escapeChar).flatten

/-! ## Data model of the program (`main.go`) -/

/-- The parts of a parsed `net/url.URL` the program reads: scheme, host
(the bucket) and path. -/
structure URL where
  scheme : Str
  host : Str
  path : Str
deriving DecidableEq

/-- The command-line arguments structure (`var args struct {...}`), minus the
two positional addresses, which are carried separately as strings to parse. -/
structure Config where
  acl : Str
  concurrency : Nat
  recursive : Bool
  region : Str
  storageClass : Str
  timeout : Int
  wait : Bool

/-- The input of `svc.CopyObjectWithContext` as the program builds it
(`main.go` lines 86–92). -/
structure CopyObjectInput where
  copySource : Str
  bucket : Str
  key : Str
  acl : Str
  storageClass : Str
deriving DecidableEq

/-- `main.go` lines 87–91: `CopySource` is `url.QueryEscape(path.Join(bucket,
key))`; `Bucket`, `Key`, `ACL` and `StorageClass` are passed through as is. -/
def mkCopyInput (acl storageClass sourceBucket sourcePath targetBucket targetPath : Str) :
    CopyObjectInput :=
  { copySource := goQueryEscape (pathJoin sourceBucket sourcePath)
    bucket := targetBucket
    key := targetPath
    acl := acl
    storageClass := storageClass }

/-- Abstract log lines; the program emits errors on stderr (`logerr`) and
successes on stdout (`loginfo`). -/
inductive LogMsg where
  | parseError
  | schemeError
  | sessionError
  | listError (sourceHost : Str)
  | copyFailed (sourcePath : Str)
  | waitFailed (targetPath : Str)
  | copied (sourcePath sourceBucket targetBucket : Str)
deriving DecidableEq

/-- The observable effects of one call of the `copyObject` closure
(`main.go` lines 80–109): the copy request it issued, whether its deferred
statements released a semaphore slot and called `wg.Done` (they run exactly
when `args.Recursive` is set), and its log lines. -/
structure CopyEffects where
  request : CopyObjectInput
  semReleased : Bool
  wgDone : Bool
  errLines : List LogMsg
  infoLines : List LogMsg
deriving DecidableEq

/-- The `copyObject` closure. The remote outcomes are inputs: `copyErr` is
whether `CopyObjectWithContext` failed, `waitErr` whether
`WaitUntilObjectExistsWithContext` failed. -/
def copyObjectRun (recursive wait : Bool) (acl storageClass : Str) (copyErr waitErr : Bool)
    (sourceBucket sourcePath targetBucket targetPath : Str) : CopyEffects :=
  let req := mkCopyInput acl storageClass sourceBucket sourcePath targetBucket targetPath
  if copyErr then
    ⟨req, recursive, recursive, [.copyFailed sourcePath], []⟩
  else if wait && waitErr then
    ⟨req, recursive, recursive, [.waitFailed targetPath], []⟩
  else
    ⟨req, recursive, recursive, [], [.copied sourcePath sourceBucket targetBucket]⟩

/-- `main.go` line 119: the target key of a listed object in recursive mode. -/
def recursiveTargetPath (target : URL) (sourcePath : Str) : Str :=
  pathJoin target.path sourcePath

/-- `main.go` line 133: the target key in non-recursive mode. -/
def singleTargetPath (target source : URL) : Str :=
  pathJoin target.path source.path

/-- `main.go` line 124: the body of the `ListObjectsPagesWithContext`
callback ends in `return true`, so every page requests the next one. -/
def listCallbackResult (_contents : List Str) (_lastPage : Bool) : Bool :=
  true

/-- Outcomes of the external collaborators, fixed per run: the two
`url.Parse` results, whether `session.NewSession` succeeds, the pages S3
delivers before the listing outcome, whether the listing then fails, and the
per-key outcomes of the copy and wait calls. -/
structure Env where
  sourceURL : Option URL
  targetURL : Option URL
  sessionOK : Bool
  pages : List (List Str)
  listFailed : Bool
  copyErr : Str → Bool
  waitErr : Str → Bool

/-- What a whole run of `main` did: the exit status (0 when `main` returns
normally), whether `session.NewSession` was invoked, whether the listing call
was made, how many semaphore slots were acquired and `wg.Add(1)` calls made
by the dispatch loop, the worker runs launched, and the log lines `main`
itself wrote. -/
structure MainResult where
  exitCode : Nat
  sessionCreated : Bool
  listingCalled : Bool
  semAcquires : Nat
  wgAdds : Nat
  workerRuns : List CopyEffects
  mainErrLines : List LogMsg

/-- Big-step embedding of `main` (`main.go` lines 31–136). Validation order
and exit codes follow the source: bad source URL → 1, bad target URL → 2,
non-s3 scheme on either → 3, session failure → 4, listing failure → 5,
otherwise `main` returns (status 0). In recursive mode a worker is launched
for every key of every delivered page while paging; on a listing failure the
process exits 5 without waiting for those workers, so only the listing error
line is attributed to `main` there. -/
def mainRun (cfg : Config) (env : Env) : MainResult :=
  match env.sourceURL with
  | none => ⟨1, false, false, 0, 0, [], [.parseError]⟩
  | some source =>
    match env.targetURL with
    | none => ⟨2, false, false, 0, 0, [], [.parseError]⟩
    | some target =>
      if source.scheme ≠ "s3".data ∨ target.scheme ≠ "s3".data then
        ⟨3, false, false, 0, 0, [], [.schemeError]⟩
      else if env.sessionOK = false then
        ⟨4, true, false, 0, 0, [], [.sessionError]⟩
      else if cfg.recursive then
        let keys := env.pages.flatten
        let runs := keys.map (fun sourcePath =>
          copyObjectRun true cfg.wait cfg.acl cfg.storageClass
            (env.copyErr sourcePath)
            (env.waitErr (recursiveTargetPath target sourcePath))
            source.host sourcePath target.host (recursiveTargetPath target sourcePath))
        if env.listFailed then
          ⟨5, true, true, keys.length, keys.length, runs, [.listError source.host]⟩
        else
          ⟨0, true, true, keys.length, keys.length, runs, []⟩
      else
        let targetPath := singleTargetPath target source
        let r := copyObjectRun false cfg.wait cfg.acl cfg.storageClass
          (env.copyErr source.path) (env.waitErr targetPath)
          source.host source.path target.host targetPath
        ⟨0, true, false, 0, 0, [r], []⟩

/-! ## Small-step model of the recursive batch

The recursive branch of `main` interleaves listing, dispatch and worker
completion. We model it as a step relation: `pending` are the pages S3 has
yet to deliver, `listFailed` tells whether the paging call ends in an error
after those pages, `inFlight` are launched workers that have not completed
(each holds exactly one semaphore slot, so the slot count is
`inFlight.length`), `completed` the reported per-key outcomes (`true` =
success line, `false` = failure line), `dispatched` every key a worker was
launched for, and `exitCode` is set once `os.Exit` or the final return
happens. -/

structure BatchState where
  pending : List (List Str)
  listFailed : Bool
  inFlight : List Str
  completed : List (Str × Bool)
  dispatched : List Str
  exitCode : Option Nat
deriving DecidableEq

/-- The batch as it starts: no worker launched, nothing dispatched. -/
def initBatch (pages : List (List Str)) (listFailed : Bool) : BatchState :=
  ⟨pages, listFailed, [], [], [], none⟩

/-- One step of the recursive batch, for semaphore capacity `C`
(`make(chan struct{}, args.Concurrency)`):
`dispatch` is one iteration of the callback loop (`wg.Add(1)`, acquire a
slot — enabled only while fewer than `C` are held — and `go copyObject`);
`pageEnd` finishes a delivered page; `complete` is a worker finishing with
some outcome, releasing its slot; `listFail` is the `os.Exit(5)` path taken
when paging ends in an error, with no wait on outstanding workers;
`finish` is the normal path: once paging succeeded and `wg.Wait` sees no
outstanding worker, `main` returns (status 0). -/
inductive BatchStep (C : Nat) : BatchState → BatchState → Prop where
  | dispatch (s : BatchState) (k : Str) (ks : List Str) (ps : List (List Str)) :
      s.exitCode = none → s.pending = (k :: ks) :: ps → s.inFlight.length < C →
      BatchStep C s { s with pending := ks :: ps,
                             inFlight := s.inFlight ++ [k],
                             dispatched := s.dispatched ++ [k] }
  | pageEnd (s : BatchState) (ps : List (List Str)) :
      s.exitCode = none → s.pending = [] :: ps →
      BatchStep C s { s with pending := ps }
  | complete (s : BatchState) (k : Str) (ok : Bool) (l1 l2 : List Str) :
      s.exitCode = none → s.inFlight = l1 ++ k :: l2 →
      BatchStep C s { s with inFlight := l1 ++ l2,
                             completed := s.completed ++ [(k, ok)] }
  | listFail (s : BatchState) :
      s.exitCode = none → s.pending = [] → s.listFailed = true →
      BatchStep C s { s with exitCode := some 5 }
  | finish (s : BatchState) :
      s.exitCode = none → s.pending = [] → s.listFailed = false → s.inFlight = [] →
      BatchStep C s { s with exitCode := some 0 }

/-- Reachability in the batch machine. -/
def BatchReach (C : Nat) : BatchState → BatchState → Prop :=
  Relation.ReflTransGen (BatchStep C)

/-! ## Clean relative paths -/

/-- A segment `path.Clean` passes through unchanged: nonempty and neither
`.` nor `..`. -/
def goodSeg (seg : Str) : Prop :=
  seg ≠ [] ∧ seg ≠ ['.'] ∧ seg ≠ ['.', '.']

instance (seg : Str) : Decidable (goodSeg seg) := by
  unfold goodSeg
  infer_instance

/-- A clean relative path: every slash-separated segment is a good segment.
This rules out the empty path, a leading or trailing slash, repeated slashes
and `.`/`..` segments. -/
def CleanRel (s : Str) : Prop :=
  ∀ seg ∈ splitSegs s, goodSeg seg

instance (s : Str) : Decidable (CleanRel s) :=
  List.decidableBAll _ _

lemma splitSegs_ne_nil (s : Str) : splitSegs s ≠ [] := by
  cases s with
  | nil => simp [splitSegs]
  | cons c cs =>
    unfold splitSegs
    split
    · simp
    · cases h : splitSegs cs with
      | nil => simp
      | cons a l => simp

lemma splitSegs_cons_slash (cs : Str) : splitSegs ('/' :: cs) = [] :: splitSegs cs := by
  conv_lhs => rw [splitSegs]
  rw [if_pos rfl]

lemma splitSegs_cons_of_ne {c : Char} (hc : c ≠ '/') {cs : Str} {a : Str} {l : List Str}
    (h : splitSegs cs = a :: l) : splitSegs (c :: cs) = (c :: a) :: l := by
  unfold splitSegs
  rw [if_neg hc, h]

lemma joinSegs_cons_of_ne (s : Str) {rest : List Str} (h : rest ≠ []) :
    joinSegs (s :: rest) = s ++ '/' :: joinSegs rest := by
  cases rest with
  | nil => exact absurd rfl h
  | cons a l => rfl

lemma splitSegs_append_sep (a b : Str) :
    splitSegs (a ++ '/' :: b) = splitSegs a ++ splitSegs b := by
  induction a with
  | nil =>
    rw [List.nil_append, splitSegs_cons_slash]
    simp [splitSegs]
  | cons c cs ih =>
    by_cases hc : c = '/'
    · subst hc
      rw [List.cons_append, splitSegs_cons_slash, splitSegs_cons_slash, ih,
        List.cons_append]
    · cases h : splitSegs cs with
      | nil => exact absurd h (splitSegs_ne_nil cs)
      | cons s rest =>
        have hab : splitSegs (cs ++ '/' :: b) = s :: (rest ++ splitSegs b) := by
          rw [ih, h, List.cons_append]
        rw [List.cons_append, splitSegs_cons_of_ne hc hab, splitSegs_cons_of_ne hc h,
          List.cons_append]

lemma joinSegs_splitSegs (s : Str) : joinSegs (splitSegs s) = s := by
  induction s with
  | nil => simp [splitSegs, joinSegs]
  | cons c cs ih =>
    by_cases hc : c = '/'
    · subst hc
      rw [splitSegs_cons_slash, joinSegs_cons_of_ne _ (splitSegs_ne_nil cs), ih,
        List.nil_append]
    · cases h : splitSegs cs with
      | nil => exact absurd h (splitSegs_ne_nil cs)
      | cons a l =>
        rw [h] at ih
        rw [splitSegs_cons_of_ne hc h]
        cases l with
        | nil =>
          simp only [joinSegs] at ih ⊢
          simp [ih]
        | cons a' l' =>
          rw [joinSegs_cons_of_ne _ (by simp)] at ih
          rw [joinSegs_cons_of_ne _ (by simp), ← ih]
          simp

lemma joinSegs_append {s1 s2 : List Str} (h1 : s1 ≠ []) (h2 : s2 ≠ []) :
    joinSegs (s1 ++ s2) = joinSegs s1 ++ '/' :: joinSegs s2 := by
  induction s1 with
  | nil => exact absurd rfl h1
  | cons a l ih =>
    cases l with
    | nil =>
      rw [List.singleton_append, joinSegs_cons_of_ne _ h2]
      simp [joinSegs]
    | cons a' l' =>
      rw [List.cons_append, joinSegs_cons_of_ne _ (by simp [h2]),
        joinSegs_cons_of_ne _ (by simp), ih (by simp)]
      simp

lemma foldl_cleanPush_good (rooted : Bool) (segs : List Str) (acc : List Str)
    (h : ∀ seg ∈ segs, goodSeg seg) :
    segs.foldl (cleanPush rooted) acc = segs.reverse ++ acc := by
  induction segs generalizing acc with
  | nil => simp
  | cons seg rest ih =>
    have hg : goodSeg seg := h seg (by simp)
    have hstep : cleanPush rooted acc seg = seg :: acc := by
      unfold cleanPush
      rw [if_neg (by simp [hg.1, hg.2.1]), if_neg hg.2.2]
    simp only [List.foldl_cons, hstep]
    rw [ih (seg :: acc) (fun s hs => h s (List.mem_cons_of_mem _ hs))]
    simp

lemma cleanRel_head_ne_slash {s : Str} (h : CleanRel s) : s.head? ≠ some '/' := by
  cases s with
  | nil => simp
  | cons c cs =>
    intro hc
    simp only [List.head?_cons, Option.some.injEq] at hc
    subst hc
    have : ([] : Str) ∈ splitSegs ('/' :: cs) := by
      unfold splitSegs
      simp
    exact (h [] this).1 rfl

lemma cleanRel_ne_nil {s : Str} (h : CleanRel s) : s ≠ [] := by
  intro hs
  subst hs
  have : ([] : Str) ∈ splitSegs [] := by simp [splitSegs]
  exact (h [] this).1 rfl

/-- On clean relative paths, `path.Join` is literal concatenation with a
slash: the join preserves the source key's structure under the prefix. -/
lemma pathJoin_cleanRel {P K : Str} (hP : CleanRel P) (hK : CleanRel K) :
    pathJoin P K = P ++ '/' :: K := by
  have hPne : P ≠ [] := cleanRel_ne_nil hP
  have hKne : K ≠ [] := cleanRel_ne_nil hK
  unfold pathJoin
  rw [if_neg (by simp [hPne]), if_neg hPne]
  unfold goPathClean
  have hne : P ++ '/' :: K ≠ [] := by simp
  rw [if_neg hne]
  have hhead : (P ++ '/' :: K).head? = P.head? := by
    cases P with
    | nil => exact absurd rfl hPne
    | cons c cs => simp
  have hrooted : decide ((P ++ '/' :: K).head? = some '/') = false := by
    rw [hhead]
    exact decide_eq_false (cleanRel_head_ne_slash hP)
  simp only [hrooted]
  have hsegs : splitSegs (P ++ '/' :: K) = splitSegs P ++ splitSegs K :=
    splitSegs_append_sep P K
  have hgood : ∀ seg ∈ splitSegs (P ++ '/' :: K), goodSeg seg := by
    rw [hsegs]
    intro seg hseg
    rcases List.mem_append.mp hseg with h | h
    · exact hP seg h
    · exact hK seg h
  rw [foldl_cleanPush_good false _ [] hgood]
  simp only [List.append_nil, List.reverse_reverse]
  rw [hsegs, joinSegs_append (splitSegs_ne_nil P) (splitSegs_ne_nil K),
    joinSegs_splitSegs, joinSegs_splitSegs]
  have : P ++ '/' :: K ≠ [] := by simp
  simp [this]

/-! ## Batch machine invariants -/

lemma batchStep_exit_none {C : Nat} {s s' : BatchState} (h : BatchStep C s s') :
    s.exitCode = none := by
  cases h <;> assumption

lemma batchReach_listFailed {C : Nat} {s t : BatchState} (h : BatchReach C s t) :
    t.listFailed = s.listFailed := by
  induction h with
  | refl => rfl
  | tail _ st ih => cases st <;> exact ih

lemma batchReach_inFlight_le {C : Nat} {s t : BatchState} (h : BatchReach C s t)
    (hs : s.inFlight.length ≤ C) : t.inFlight.length ≤ C := by
  induction h with
  | refl => exact hs
  | tail _ st ih =>
    cases st with
    | dispatch k ks ps h1 h2 h3 => simpa using h3
    | pageEnd ps h1 h2 => exact ih
    | complete k ok l1 l2 h1 h2 =>
      dsimp only
      rw [h2] at ih
      simp only [List.length_append, List.length_cons] at ih ⊢
      omega
    | listFail h1 h2 h3 => exact ih
    | finish h1 h2 h3 h4 => exact ih

lemma batchReach_exit_inFlight {C : Nat} {pages : List (List Str)} {t : BatchState}
    (h : BatchReach C (initBatch pages false) t) {e : Nat} (he : t.exitCode = some e) :
    t.inFlight = [] := by
  induction h with
  | refl => simp [initBatch] at he
  | tail hr st ih =>
    cases st with
    | dispatch k ks ps h1 h2 h3 => dsimp only at he; simp [h1] at he
    | pageEnd ps h1 h2 => dsimp only at he; simp [h1] at he
    | complete k ok l1 l2 h1 h2 => dsimp only at he; simp [h1] at he
    | listFail h1 h2 h3 =>
      have hlf := batchReach_listFailed hr
      simp only [initBatch] at hlf
      rw [h3] at hlf
      cases hlf
    | finish h1 h2 h3 h4 => exact h4

lemma batchReach_exit_of_listFailed {C : Nat} {pages : List (List Str)} {t : BatchState}
    (h : BatchReach C (initBatch pages true) t) :
    t.exitCode = none ∨ t.exitCode = some 5 := by
  induction h with
  | refl => exact Or.inl rfl
  | tail hr st _ =>
    cases st with
    | dispatch k ks ps h1 h2 h3 => exact Or.inl h1
    | pageEnd ps h1 h2 => exact Or.inl h1
    | complete k ok l1 l2 h1 h2 => exact Or.inl h1
    | listFail h1 h2 h3 => exact Or.inr rfl
    | finish h1 h2 h3 h4 =>
      have hlf := batchReach_listFailed hr
      simp only [initBatch] at hlf
      rw [h3] at hlf
      cases hlf

lemma batchReach_dispatched_pending {C : Nat} {pages : List (List Str)} {lf : Bool}
    {t : BatchState} (h : BatchReach C (initBatch pages lf) t) :
    t.dispatched ++ t.pending.flatten = pages.flatten ∧
      (∀ e, t.exitCode = some e → t.pending = []) := by
  induction h with
  | refl => exact ⟨rfl, fun e he => by simp [initBatch] at he⟩
  | tail hr st ih =>
    cases st with
    | dispatch k ks ps h1 h2 h3 =>
      refine ⟨?_, fun e he => by dsimp only at he; simp [h1] at he⟩
      have hd := ih.1
      rw [h2] at hd
      dsimp only
      rw [← hd]
      simp [List.flatten_cons]
    | pageEnd ps h1 h2 =>
      refine ⟨?_, fun e he => by dsimp only at he; simp [h1] at he⟩
      have hd := ih.1
      rw [h2] at hd
      dsimp only
      rw [← hd]
      simp
    | complete k ok l1 l2 h1 h2 =>
      exact ⟨ih.1, fun e he => by dsimp only at he; simp [h1] at he⟩
    | listFail h1 h2 h3 => exact ⟨ih.1, fun e _ => h2⟩
    | finish h1 h2 h3 h4 => exact ⟨ih.1, fun e _ => h2⟩

lemma batchReach_completed_perm {C : Nat} {pages : List (List Str)} {lf : Bool}
    {t : BatchState} (h : BatchReach C (initBatch pages lf) t) :
    (t.completed.map Prod.fst ++ t.inFlight).Perm t.dispatched := by
  induction h with
  | refl => exact List.Perm.refl _
  | tail hr st ih =>
    cases st with
    | dispatch k ks ps h1 h2 h3 =>
      dsimp only
      rw [← List.append_assoc]
      exact List.Perm.append_right [k] ih
    | pageEnd ps h1 h2 => exact ih
    | complete k ok l1 l2 h1 h2 =>
      dsimp only
      rw [h2] at ih
      refine List.Perm.trans ?_ ih
      rw [List.map_append, List.append_assoc]
      refine List.Perm.append_left _ ?_
      simpa using List.perm_middle.symm
    | listFail h1 h2 h3 => exact ih
    | finish h1 h2 h3 h4 => exact ih

/-! ## Serialized complete runs of the batch machine -/

lemma reach_run_page {C : Nat} (hC : 1 ≤ C) (f : Str → Bool) (ks : List Str)
    (ps : List (List Str)) (lf : Bool) (done : List (Str × Bool)) (disp : List Str) :
    BatchReach C ⟨ks :: ps, lf, [], done, disp, none⟩
      ⟨ps, lf, [], done ++ ks.map (fun k => (k, f k)), disp ++ ks, none⟩ := by
  induction ks generalizing done disp with
  | nil =>
    have st := BatchStep.pageEnd (C := C) ⟨[] :: ps, lf, [], done, disp, none⟩ ps rfl rfl
    simpa using Relation.ReflTransGen.single st
  | cons k ks ih =>
    have st1 := BatchStep.dispatch (C := C) ⟨(k :: ks) :: ps, lf, [], done, disp, none⟩
      k ks ps rfl rfl (by simpa using hC)
    have st2 := BatchStep.complete (C := C) ⟨ks :: ps, lf, [k], done, disp ++ [k], none⟩
      k (f k) [] [] rfl rfl
    have rest := ih (done ++ [(k, f k)]) (disp ++ [k])
    have chain := Relation.ReflTransGen.head st1 (Relation.ReflTransGen.head st2 rest)
    simpa using chain

lemma reach_run_pages {C : Nat} (hC : 1 ≤ C) (f : Str → Bool) (pages : List (List Str))
    (lf : Bool) (done : List (Str × Bool)) (disp : List Str) :
    BatchReach C ⟨pages, lf, [], done, disp, none⟩
      ⟨[], lf, [], done ++ pages.flatten.map (fun k => (k, f k)), disp ++ pages.flatten, none⟩ := by
  induction pages generalizing done disp with
  | nil => simpa using Relation.ReflTransGen.refl (a := (⟨[], lf, [], done, disp, none⟩ : BatchState))
  | cons ks pss ih =>
    have first := reach_run_page hC f ks pss lf done disp
    have rest := ih (done ++ ks.map (fun k => (k, f k))) (disp ++ ks)
    have chain := Relation.ReflTransGen.trans first rest
    simpa [List.append_assoc] using chain

lemma reach_full_success {C : Nat} (hC : 1 ≤ C) (f : Str → Bool) (pages : List (List Str)) :
    BatchReach C (initBatch pages false)
      ⟨[], false, [], pages.flatten.map (fun k => (k, f k)), pages.flatten, some 0⟩ := by
  have run := reach_run_pages hC f pages false [] []
  simp only [List.nil_append] at run
  have fin := BatchStep.finish (C := C)
    ⟨[], false, [], pages.flatten.map (fun k => (k, f k)), pages.flatten, none⟩
    rfl rfl rfl rfl
  exact Relation.ReflTransGen.tail run fin

end S3Copy

namespace S3Copy

example : goPathClean ("backup//a/b/c.txt".data) = "backup/a/b/c.txt".data := by decide

example : pathJoin ("backup/".data) ("a/b/c.txt".data) = "backup/a/b/c.txt".data := by decide

example : pathJoin ("/backup".data) ("/file.txt".data) = "/backup/file.txt".data := by decide

example : goQueryEscape ("src/a b.txt".data) = "src%2Fa+b.txt".data := by decide

example : goTrimLeading ("/pre/x".data) ("/".data) = "pre/x".data := by decide

/-! ## Small facts about `copyObjectRun` and `mainRun` -/

lemma copyObjectRun_request (r w : Bool) (a sc : Str) (ce we : Bool) (sb sp tb tp : Str) :
    (copyObjectRun r w a sc ce we sb sp tb tp).request = mkCopyInput a sc sb sp tb tp := by
  unfold copyObjectRun
  dsimp only
  split
  · rfl
  · split <;> rfl

lemma copyObjectRun_semReleased (r w : Bool) (a sc : Str) (ce we : Bool) (sb sp tb tp : Str) :
    (copyObjectRun r w a sc ce we sb sp tb tp).semReleased = r := by
  unfold copyObjectRun
  dsimp only
  split
  · rfl
  · split <;> rfl

lemma copyObjectRun_wgDone (r w : Bool) (a sc : Str) (ce we : Bool) (sb sp tb tp : Str) :
    (copyObjectRun r w a sc ce we sb sp tb tp).wgDone = r := by
  unfold copyObjectRun
  dsimp only
  split
  · rfl
  · split <;> rfl

/-- The exit status of `main` as a function of the collaborator outcomes
alone: the per-key copy and wait outcomes do not appear. -/
lemma mainRun_exitCode (cfg : Config) (env : Env) :
    (mainRun cfg env).exitCode =
      match env.sourceURL, env.targetURL with
      | none, _ => 1
      | some _, none => 2
      | some u, some v =>
        if u.scheme ≠ "s3".data ∨ v.scheme ≠ "s3".data then 3
        else if env.sessionOK = false then 4
        else if cfg.recursive then if env.listFailed then 5 else 0
        else 0 := by
  unfold mainRun
  rcases env.sourceURL with _ | u
  · rfl
  · rcases env.targetURL with _ | v
    · rfl
    · dsimp only
      split
      · rfl
      · split
        · rfl
        · split
          · split <;> rfl
          · rfl

/-! ## Claims -/

/-- C1: For every configured concurrency limit `C ≥ 1` and every key sequence
(pages, with or without a final listing error), at no point during a batch
does the number of outstanding concurrency slots — one per in-flight worker,
acquired by the dispatcher before launching it and released exactly once on
its completion — exceed `C`. -/
theorem slots_never_exceed_concurrency (C : Nat) (hC : 1 ≤ C) (pages : List (List Str))
    (lf : Bool) (t : BatchState) (h : BatchReach C (initBatch pages lf) t) :
    t.inFlight.length ≤ C :=
  batchReach_inFlight_le h (by simp [initBatch])

/-- Witness for C1 at concurrency 2 and a concrete two-key page. -/
theorem slots_never_exceed_concurrency_witness :
    (initBatch [["k1".data, "k2".data]] false).inFlight.length ≤ 2 :=
  slots_never_exceed_concurrency 2 (by decide) [["k1".data, "k2".data]] false _
    Relation.ReflTransGen.refl

/-- C2: In both recursive mode and non-recursive mode the computed target key
is the pure path-join of the destination path prefix and the source key; on
clean relative paths the join is literal concatenation with a slash, so the
source key's relative structure is preserved under the destination prefix;
in particular `a/b/c.txt` under prefix `backup/` yields `backup/a/b/c.txt`. -/
theorem target_key_is_path_join :
    (∀ (target : URL) (sourcePath : Str),
      recursiveTargetPath target sourcePath = pathJoin target.path sourcePath) ∧
    (∀ (target source : URL),
      singleTargetPath target source = pathJoin target.path source.path) ∧
    (∀ P K : Str, CleanRel P → CleanRel K → pathJoin P K = P ++ '/' :: K) ∧
    pathJoin ("backup/".data) ("a/b/c.txt".data) = "backup/a/b/c.txt".data :=
  ⟨fun _ _ => rfl, fun _ _ => rfl, fun _ _ hP hK => pathJoin_cleanRel hP hK, by decide⟩

/-- Witness for C2 on the concrete clean prefix `backup` and key `a/b/c.txt`. -/
theorem target_key_is_path_join_witness :
    CleanRel ("backup".data) ∧ CleanRel ("a/b/c.txt".data) ∧
    pathJoin ("backup".data) ("a/b/c.txt".data) = "backup/a/b/c.txt".data :=
  ⟨by decide, by decide,
   target_key_is_path_join.2.2.1 ("backup".data) ("a/b/c.txt".data) (by decide) (by decide)⟩

/-- A concrete execution of the recursive branch: the key of the first page
is dispatched to a worker, then paging ends in an error and `os.Exit(5)`
runs; the dispatched worker is still in flight at exit. -/
lemma demo_listfail_reach :
    BatchReach 1 (initBatch [["a".data]] true)
      ⟨[], true, ["a".data], [], ["a".data], some 5⟩ := by
  have st1 := BatchStep.dispatch (C := 1) ⟨[["a".data]], true, [], [], [], none⟩
    ("a".data) [] [] rfl rfl (by decide)
  have st2 := BatchStep.pageEnd (C := 1) ⟨[[]], true, ["a".data], [], ["a".data], none⟩
    [] rfl rfl
  have st3 := BatchStep.listFail (C := 1) ⟨[], true, ["a".data], [], ["a".data], none⟩
    rfl rfl rfl
  exact Relation.ReflTransGen.head st1
    (Relation.ReflTransGen.head st2 (Relation.ReflTransGen.single st3))

/-- C3 as stated is false: there is a reachable state of the recursive batch
in which listing has failed (exit status 5) yet a copy was already
dispatched, because `main.go` launches workers for each page as it arrives
and a later page may still fail. -/
theorem listing_failure_after_dispatch_demo :
    BatchReach 1 (initBatch [["a".data]] true)
      ⟨[], true, ["a".data], [], ["a".data], some 5⟩ ∧
    (⟨[], true, ["a".data], [], ["a".data], some 5⟩ : BatchState).exitCode = some 5 ∧
    (⟨[], true, ["a".data], [], ["a".data], some 5⟩ : BatchState).dispatched ≠ [] :=
  ⟨demo_listfail_reach, rfl, by decide⟩

/-- C3 (amended): in recursive mode a listing failure is a single fatal error
for the whole batch: the only exit status a failing listing can produce is 5
(never the normal status 0 and never a per-key report), and the exit is
final — no further step, in particular no further dispatch, follows it.
Copies dispatched from pages delivered before the failure may however
already have been attempted. -/
theorem listing_failure_fatal (C : Nat) (pages : List (List Str)) (t : BatchState)
    (h : BatchReach C (initBatch pages true) t) :
    (t.exitCode = none ∨ t.exitCode = some 5) ∧
    (∀ e, t.exitCode = some e → ∀ t', ¬ BatchStep C t t') :=
  ⟨batchReach_exit_of_listFailed h,
   fun e he t' hst => by
     have hn := batchStep_exit_none hst
     rw [hn] at he
     simp at he⟩

/-- Witness for C3 (amended): the one-step run of an empty listing that fails
immediately and exits 5. -/
theorem listing_failure_fatal_witness :
    ((⟨[], true, [], [], [], some 5⟩ : BatchState).exitCode = none ∨
      (⟨[], true, [], [], [], some 5⟩ : BatchState).exitCode = some 5) ∧
    (∀ e, (⟨[], true, [], [], [], some 5⟩ : BatchState).exitCode = some e →
      ∀ t', ¬ BatchStep 1 (⟨[], true, [], [], [], some 5⟩ : BatchState) t') :=
  listing_failure_fatal 1 [] _
    (Relation.ReflTransGen.single (BatchStep.listFail (initBatch [] true) rfl rfl rfl))

/-- C4 as stated is false: on the listing-failure path the process exits
(status 5) while a launched worker is still outstanding, since `os.Exit(5)`
runs without waiting on the wait group. -/
theorem exit_with_outstanding_worker_demo :
    BatchReach 1 (initBatch [["a".data]] true)
      ⟨[], true, ["a".data], [], ["a".data], some 5⟩ ∧
    (⟨[], true, ["a".data], [], ["a".data], some 5⟩ : BatchState).exitCode = some 5 ∧
    (⟨[], true, ["a".data], [], ["a".data], some 5⟩ : BatchState).inFlight ≠ [] :=
  ⟨demo_listfail_reach, rfl, by decide⟩

/-- C4 (amended): on every execution path on which the listing does not fail,
the batch terminates only after every launched worker has reported its
outcome: whenever the process has exited, no worker is outstanding. (On a
listing failure the process may exit with workers outstanding.) -/
theorem exit_only_after_workers_done (C : Nat) (pages : List (List Str)) (t : BatchState)
    (h : BatchReach C (initBatch pages false) t) (e : Nat) (he : t.exitCode = some e) :
    t.inFlight = [] :=
  batchReach_exit_inFlight h he

/-- Witness for C4 (amended): the finished run of an empty successful
listing. -/
theorem exit_only_after_workers_done_witness :
    (⟨[], false, [], [], [], some 0⟩ : BatchState).inFlight = [] :=
  exit_only_after_workers_done 1 [] _
    (Relation.ReflTransGen.single (BatchStep.finish (initBatch [] false) rfl rfl rfl rfl))
    0 rfl

/-- C5: per-key outcomes are isolated: for any assignment `f` of per-key
outcomes (in particular one with a single failing key) there is a complete
batch run that reports exactly `f k` for every listed key `k` and exits
normally — a failing copy cancels no sibling; and in every reachable state
each dispatched key is accounted for exactly once, as either one reported
outcome or one in-flight worker — no retry, no duplicate report. -/
theorem copy_failure_isolated (C : Nat) (hC : 1 ≤ C) (pages : List (List Str))
    (f : Str → Bool) :
    (∃ t, BatchReach C (initBatch pages false) t ∧ t.exitCode = some 0 ∧
      t.completed = pages.flatten.map (fun k => (k, f k)) ∧
      t.dispatched = pages.flatten) ∧
    (∀ (lf : Bool) (t : BatchState), BatchReach C (initBatch pages lf) t →
      (t.completed.map Prod.fst ++ t.inFlight).Perm t.dispatched) :=
  ⟨⟨_, reach_full_success hC f pages, rfl, rfl, rfl⟩,
   fun _ _ h => batchReach_completed_perm h⟩

/-- Witness for C5: three keys with concurrency 2, the middle key failing:
the run reports failure for it and success for the two others. -/
theorem copy_failure_isolated_witness :
    (∃ t, BatchReach 2 (initBatch [["x".data, "y".data, "z".data]] false) t ∧
      t.exitCode = some 0 ∧
      t.completed = [["x".data, "y".data, "z".data]].flatten.map
        (fun k => (k, decide (k ≠ "y".data))) ∧
      t.dispatched = [["x".data, "y".data, "z".data]].flatten) ∧
    (∀ (lf : Bool) (t : BatchState),
      BatchReach 2 (initBatch [["x".data, "y".data, "z".data]] lf) t →
      (t.completed.map Prod.fst ++ t.inFlight).Perm t.dispatched) :=
  copy_failure_isolated 2 (by decide) [["x".data, "y".data, "z".data]]
    (fun k => decide (k ≠ "y".data))

/-- C6: the exit status is zero exactly when both addresses parse with scheme
s3, the session is created and (in recursive mode) the listing succeeds;
the per-key copy and wait outcomes never change the exit status; and every
exit status is one of 0–5. -/
theorem exit_status_only_config_and_listing (cfg : Config) (env : Env) :
    ((mainRun cfg env).exitCode = 0 ↔
      (∃ u v, env.sourceURL = some u ∧ env.targetURL = some v ∧
        u.scheme = "s3".data ∧ v.scheme = "s3".data ∧ env.sessionOK = true ∧
        (cfg.recursive = true → env.listFailed = false))) ∧
    (∀ ce we : Str → Bool,
      (mainRun cfg { env with copyErr := ce, waitErr := we }).exitCode =
        (mainRun cfg env).exitCode) ∧
    (mainRun cfg env).exitCode ≤ 5 := by
  refine ⟨?_, ?_, ?_⟩
  · rw [mainRun_exitCode]
    rcases env.sourceURL with _ | u
    · refine iff_of_false (show ¬((1 : Nat) = 0) by decide) ?_
      rintro ⟨u', v', hu', hv', _⟩
      exact Option.noConfusion hu'
    · rcases env.targetURL with _ | v
      · refine iff_of_false (show ¬((2 : Nat) = 0) by decide) ?_
        rintro ⟨u', v', hu', hv', _⟩
        exact Option.noConfusion hv'
      · dsimp only
        split
        · rename_i hbad
          refine iff_of_false (by decide) ?_
          rintro ⟨u', v', hu', hv', hsc, htc, _, _⟩
          simp only [Option.some.injEq] at hu' hv'
          subst hu'
          subst hv'
          rcases hbad with hb | hb
          · exact hb hsc
          · exact hb htc
        · rename_i hok
          push_neg at hok
          split
          · rename_i hsess
            refine iff_of_false (by decide) ?_
            rintro ⟨u', v', _, _, _, _, hs, _⟩
            rw [hs] at hsess
            exact Bool.noConfusion hsess
          · rename_i hsess
            have hsOK : env.sessionOK = true := by
              cases hson : env.sessionOK
              · exact absurd hson hsess
              · rfl
            split
            · rename_i hrec
              cases hlf : env.listFailed
              · rw [if_neg (by decide)]
                exact iff_of_true rfl ⟨u, v, rfl, rfl, hok.1, hok.2, hsOK, fun _ => rfl⟩
              · rw [if_pos rfl]
                refine iff_of_false (by decide) ?_
                rintro ⟨u', v', _, _, _, _, _, himp⟩
                exact Bool.noConfusion (himp hrec)
            · rename_i hrec
              have hr : cfg.recursive = false := by
                cases hrc : cfg.recursive
                · rfl
                · exact absurd hrc hrec
              refine iff_of_true rfl ⟨u, v, rfl, rfl, hok.1, hok.2, hsOK, ?_⟩
              intro hcontra
              rw [hr] at hcontra
              exact Bool.noConfusion hcontra
  · intro ce we
    rw [mainRun_exitCode, mainRun_exitCode]
  · rw [mainRun_exitCode]
    rcases env.sourceURL with _ | u
    · rcases env.targetURL with _ | v
      · show (1 : Nat) ≤ 5
        decide
      · show (1 : Nat) ≤ 5
        decide
    · rcases env.targetURL with _ | v
      · show (2 : Nat) ≤ 5
        decide
      · dsimp only
        split
        · decide
        · split
          · decide
          · split
            · split <;> decide
            · decide

/-- C7: if both addresses parse and either has a scheme other than `s3`, the
program exits with status 3 — the status reserved for exactly this failure
class — before any network activity: no session is created, no listing call
is made and no copy worker is launched. -/
theorem bad_scheme_rejected_before_network (cfg : Config) (env : Env) (u v : URL)
    (hu : env.sourceURL = some u) (hv : env.targetURL = some v)
    (hbad : u.scheme ≠ "s3".data ∨ v.scheme ≠ "s3".data) :
    (mainRun cfg env).exitCode = 3 ∧
    (mainRun cfg env).sessionCreated = false ∧
    (mainRun cfg env).listingCalled = false ∧
    (mainRun cfg env).workerRuns = [] ∧
    (∀ (cfg' : Config) (env' : Env), (mainRun cfg' env').exitCode = 3 →
      ∃ u' v', env'.sourceURL = some u' ∧ env'.targetURL = some v' ∧
        (u'.scheme ≠ "s3".data ∨ v'.scheme ≠ "s3".data)) := by
  have hmain : mainRun cfg env = ⟨3, false, false, 0, 0, [], [.schemeError]⟩ := by
    unfold mainRun
    rw [hu, hv]
    dsimp only
    rw [if_pos hbad]
  refine ⟨by rw [hmain], by rw [hmain], by rw [hmain], by rw [hmain], ?_⟩
  intro cfg' env' hexit
  rw [mainRun_exitCode] at hexit
  rcases hsu : env'.sourceURL with _ | u'
  · rw [hsu] at hexit
    cases hexit
  · rcases htv : env'.targetURL with _ | v'
    · rw [hsu, htv] at hexit
      cases hexit
    · rw [hsu, htv] at hexit
      dsimp only at hexit
      refine ⟨u', v', rfl, rfl, ?_⟩
      by_contra hgood
      push_neg at hgood
      rw [if_neg (by simp [hgood.1, hgood.2])] at hexit
      split at hexit
      · cases hexit
      · split at hexit
        · split at hexit <;> cases hexit
        · cases hexit

/-- Witness for C7: a concrete `http`-scheme source address is rejected with
status 3 and no collaborator is touched. -/
theorem bad_scheme_rejected_before_network_witness :
    (mainRun
      ⟨[], 10, false, "us-east-1".data, "STANDARD".data, 60, false⟩
      ⟨some ⟨"http".data, "b".data, "/p".data⟩, some ⟨"s3".data, "c".data, "/q".data⟩,
        true, [], false, fun _ => false, fun _ => false⟩).exitCode = 3 ∧
    (mainRun
      ⟨[], 10, false, "us-east-1".data, "STANDARD".data, 60, false⟩
      ⟨some ⟨"http".data, "b".data, "/p".data⟩, some ⟨"s3".data, "c".data, "/q".data⟩,
        true, [], false, fun _ => false, fun _ => false⟩).sessionCreated = false ∧
    (mainRun
      ⟨[], 10, false, "us-east-1".data, "STANDARD".data, 60, false⟩
      ⟨some ⟨"http".data, "b".data, "/p".data⟩, some ⟨"s3".data, "c".data, "/q".data⟩,
        true, [], false, fun _ => false, fun _ => false⟩).listingCalled = false ∧
    (mainRun
      ⟨[], 10, false, "us-east-1".data, "STANDARD".data, 60, false⟩
      ⟨some ⟨"http".data, "b".data, "/p".data⟩, some ⟨"s3".data, "c".data, "/q".data⟩,
        true, [], false, fun _ => false, fun _ => false⟩).workerRuns = [] ∧
    (∀ (cfg' : Config) (env' : Env), (mainRun cfg' env').exitCode = 3 →
      ∃ u' v', env'.sourceURL = some u' ∧ env'.targetURL = some v' ∧
        (u'.scheme ≠ "s3".data ∨ v'.scheme ≠ "s3".data)) :=
  bad_scheme_rejected_before_network _ _ _ _ rfl rfl (Or.inl (by decide))

/-- C8: in recursive mode, on any run that exits, the keys handed to workers
are exactly the keys of the source bucket matching the requested prefix —
the source path with its leading slash trimmed, as the program requests from
S3 — provided the paginated listing delivered exactly those keys across its
pages; and the listing callback answers `true` on every page, so pagination
continues until the service reports no further pages. -/
theorem recursive_lister_exact (C : Nat) (bucketKeys : List Str) (sourcePath : Str)
    (pages : List (List Str)) (t : BatchState)
    (hS3 : pages.flatten = bucketKeys.filter
      (fun k => (goTrimLeading sourcePath ("/".data)).isPrefixOf k))
    (h : BatchReach C (initBatch pages false) t) (e : Nat) (he : t.exitCode = some e) :
    t.dispatched = bucketKeys.filter
      (fun k => (goTrimLeading sourcePath ("/".data)).isPrefixOf k) ∧
    (∀ contents lastPage, listCallbackResult contents lastPage = true) := by
  have hd := batchReach_dispatched_pending h
  have hp : t.pending = [] := hd.2 e he
  have hflat := hd.1
  rw [hp] at hflat
  simp only [List.flatten_nil, List.append_nil] at hflat
  exact ⟨hflat.trans hS3, fun _ _ => rfl⟩

/-- Witness for C8: bucket `{p/a, q/b}` listed under source path `/p` yields
exactly the dispatched key `p/a` on a completed run. -/
theorem recursive_lister_exact_witness :
    (⟨[], false, [],
        [["p/a".data]].flatten.map (fun k => (k, true)),
        [["p/a".data]].flatten, some 0⟩ : BatchState).dispatched =
      ["p/a".data, "q/b".data].filter
        (fun k => (goTrimLeading ("/p".data) ("/".data)).isPrefixOf k) ∧
    (∀ contents lastPage, listCallbackResult contents lastPage = true) :=
  recursive_lister_exact 1 ["p/a".data, "q/b".data] ("/p".data) [["p/a".data]] _
    (by decide)
    (reach_full_success (by decide) (fun _ => true) [["p/a".data]])
    0 rfl

/-- C9: every copy request a worker issues names, as its copy source, the
percent-escaped (by Go query escaping) path-join of source bucket and source
key, carries the configured ACL and storage class, and names the target
bucket and the computed target key unescaped; concretely, source bucket
`src` and key `a b.txt` give copy source `src%2Fa+b.txt`. -/
theorem copy_request_shape :
    (∀ (recursive wait : Bool) (acl storageClass : Str) (copyErr waitErr : Bool)
        (sourceBucket sourcePath targetBucket targetPath : Str),
      (copyObjectRun recursive wait acl storageClass copyErr waitErr
          sourceBucket sourcePath targetBucket targetPath).request =
        mkCopyInput acl storageClass sourceBucket sourcePath targetBucket targetPath) ∧
    (∀ acl storageClass sourceBucket sourcePath targetBucket targetPath : Str,
      (mkCopyInput acl storageClass sourceBucket sourcePath targetBucket
          targetPath).copySource = goQueryEscape (pathJoin sourceBucket sourcePath) ∧
      (mkCopyInput acl storageClass sourceBucket sourcePath targetBucket
          targetPath).bucket = targetBucket ∧
      (mkCopyInput acl storageClass sourceBucket sourcePath targetBucket
          targetPath).key = targetPath ∧
      (mkCopyInput acl storageClass sourceBucket sourcePath targetBucket
          targetPath).acl = acl ∧
      (mkCopyInput acl storageClass sourceBucket sourcePath targetBucket
          targetPath).storageClass = storageClass) ∧
    (mkCopyInput [] ("STANDARD".data) ("src".data) ("a b.txt".data) ("dst".data)
        ("backup/a b.txt".data)).copySource = "src%2Fa+b.txt".data :=
  ⟨copyObjectRun_request, fun _ _ _ _ _ _ => ⟨rfl, rfl, rfl, rfl, rfl⟩, by decide⟩

/-- C10: when the recursive flag is off, `main` runs the single copy on its
own control flow: the dispatch counters stay at zero (no semaphore slot
acquired, no `wg.Add`), and the worker run — `copyObject` called with the
recursive flag false — releases no slot and calls no `wg.Done`, its deferred
statements being skipped. -/
theorem nonrecursive_skips_slot_pool (cfg : Config) (env : Env)
    (hrec : cfg.recursive = false) :
    (mainRun cfg env).semAcquires = 0 ∧ (mainRun cfg env).wgAdds = 0 ∧
    (∀ r ∈ (mainRun cfg env).workerRuns, r.semReleased = false ∧ r.wgDone = false) ∧
    (∀ (wait : Bool) (acl storageClass : Str) (copyErr waitErr : Bool)
        (sb sp tb tp : Str),
      (copyObjectRun false wait acl storageClass copyErr waitErr sb sp tb tp).semReleased
          = false ∧
      (copyObjectRun false wait acl storageClass copyErr waitErr sb sp tb tp).wgDone
          = false) := by
  refine ⟨?_, ?_, ?_, fun w a sc ce we sb sp tb tp =>
    ⟨copyObjectRun_semReleased .., copyObjectRun_wgDone ..⟩⟩ <;>
  · unfold mainRun
    rcases env.sourceURL with _ | u
    · simp
    · rcases env.targetURL with _ | v
      · simp
      · dsimp only
        split
        · simp
        · split
          · simp
          · rw [if_neg (by simp [hrec])] <;>
              simp [copyObjectRun_semReleased, copyObjectRun_wgDone]

/-- Witness for C10: a concrete valid non-recursive run touches neither the
semaphore nor the wait group. -/
theorem nonrecursive_skips_slot_pool_witness :
    (mainRun
      ⟨[], 10, false, "us-east-1".data, "STANDARD".data, 60, false⟩
      ⟨some ⟨"s3".data, "b".data, "/f.txt".data⟩, some ⟨"s3".data, "c".data, "/d/".data⟩,
        true, [], false, fun _ => false, fun _ => false⟩).semAcquires = 0 ∧
    (mainRun
      ⟨[], 10, false, "us-east-1".data, "STANDARD".data, 60, false⟩
      ⟨some ⟨"s3".data, "b".data, "/f.txt".data⟩, some ⟨"s3".data, "c".data, "/d/".data⟩,
        true, [], false, fun _ => false, fun _ => false⟩).wgAdds = 0 ∧
    (∀ r ∈ (mainRun
      ⟨[], 10, false, "us-east-1".data, "STANDARD".data, 60, false⟩
      ⟨some ⟨"s3".data, "b".data, "/f.txt".data⟩, some ⟨"s3".data, "c".data, "/d/".data⟩,
        true, [], false, fun _ => false, fun _ => false⟩).workerRuns,
      r.semReleased = false ∧ r.wgDone = false) ∧
    (∀ (wait : Bool) (acl storageClass : Str) (copyErr waitErr : Bool)
        (sb sp tb tp : Str),
      (copyObjectRun false wait acl storageClass copyErr waitErr sb sp tb tp).semReleased
          = false ∧
      (copyObjectRun false wait acl storageClass copyErr waitErr sb sp tb tp).wgDone
          = false) :=
  nonrecursive_skips_slot_pool _ _ rfl

end S3Copy
